import Mathlib

/-!
# Verification of the my-cursor plan-execution engine

A shallow embedding of the plan execution engine of the `my-cursor`
VS Code extension, translated from the TypeScript sources:

* `src/engine/sanitize.ts` — the path sandbox (`withinWorkspace`);
* `src/engine/plan.ts` — the `Plan` data model and `coerceJsonToPlan`;
* `src/engine/executor.ts` — `executePlan` with its per-action helpers
  (`safeWrite`, `safeAppend`, `safeEdit`, `runShell`, `installPkgs`);
* `src/extension.ts` — the snapshot/revert subsystem (`runPlan`,
  `revertPlan`, `stableStringify`, `collectTouchedFiles`) and the
  bounded auto-repair loop.

Modelling conventions:

* Machine strings are Lean `String`s; all computations recurse over
  the underlying `List Char` so that concrete instances evaluate in
  the kernel.  JavaScript operates on UTF-16 code units while Lean's
  `Char` is a Unicode scalar; every input exercised here is ASCII,
  where the two coincide.
* The filesystem is a pair of lookup maps: file path to optional
  content, and a set of directories.  `vscode.workspace.fs` operations
  become updates of those maps.  Creation of *intermediate* parent
  directories by `createDirectory` is not tracked (only the directly
  requested directory is recorded); no claim depends on it.
* Subprocess execution (`exec`) is an opaque parameter
  `sh : String → String → String × String` mapping a command and a
  working directory to captured stdout/stderr; its filesystem side
  effects are outside the model.  The claims touching `shell` only
  concern the disabled gate and dry-run, where no subprocess runs.
* `vscode.Uri` values are represented by their `fsPath` strings, which
  is the only part the engine inspects.
-/

namespace MyCursor

/-! ## JavaScript-style character and string helpers -/

/-- The whitespace class used by JavaScript `String.prototype.trim` and
the regex class `\s`, restricted to the characters that can actually
occur in this development (ASCII whitespace, NBSP, BOM). -/
def jsWhitespace (c : Char) : Bool :=
  c == ' ' || c == '\t' || c == '\n' || c == '\r' ||
  c == Char.ofNat 11 || c == Char.ofNat 12 || c == Char.ofNat 160 ||
  c == Char.ofNat 65279

/-- JavaScript `String.prototype.trim`. -/
def jsTrim (s : String) : String :=
  String.mk (((s.data.dropWhile jsWhitespace).reverse.dropWhile jsWhitespace).reverse)

/-- Boolean list-prefix test (the core of `String.prototype.startsWith`). -/
def listPrefix : List Char → List Char → Bool
  | [], _ => true
  | _ :: _, [] => false
  | a :: as, b :: bs => a == b && listPrefix as bs

/-- JavaScript `s.startsWith(pre)`. -/
def strStartsWith (s pre : String) : Bool := listPrefix pre.data s.data

/-- JavaScript `s.endsWith(suf)`. -/
def strEndsWith (s suf : String) : Bool := listPrefix suf.data.reverse s.data.reverse

/-- JavaScript `s.slice(a, b)` for `0 ≤ a` (as used by the engine). -/
def strSlice (s : String) (a b : Nat) : String :=
  String.mk ((s.data.drop a).take (b - a))

/-- Index of the last occurrence of a character, like
`String.prototype.lastIndexOf` restricted to single-character needles. -/
def lastIdxOf (cs : List Char) (c : Char) : Option Nat :=
  match cs.reverse.findIdx? (fun x => x == c) with
  | some i => some (cs.length - 1 - i)
  | none => none

/-- Concatenate with a separator, like `Array.prototype.join`. -/
def joinWith (sep : String) : List String → String
  | [] => ""
  | [x] => x
  | x :: y :: rest => x ++ sep ++ joinWith sep (y :: rest)

/-- Worker for `jsSplit`: split on every non-overlapping, leftmost
occurrence of a (nonempty) separator. -/
def splitOnAux (sep : List Char) : Nat → List Char → List Char → List String
  | 0, acc, _ => [String.mk acc.reverse]
  | _ + 1, acc, [] => [String.mk acc.reverse]
  | fuel + 1, acc, c :: cs =>
    if listPrefix sep (c :: cs) then
      String.mk acc.reverse :: splitOnAux sep fuel [] ((c :: cs).drop sep.length)
    else
      splitOnAux sep fuel (c :: acc) cs

/-- JavaScript `data.split(find)`: for the empty separator the string
splits into its individual characters, otherwise on every
non-overlapping leftmost occurrence of the separator. -/
def jsSplit (data find : String) : List String :=
  if find = "" then data.data.map (fun c => String.mk [c])
  else splitOnAux find.data (data.data.length + 1) [] data.data

/-! ## Lexical path resolution (Node `path.resolve`, POSIX flavor) -/

/-- Split a path into its nonempty components. -/
def pathComps (s : String) : List String :=
  (jsSplit s "/").filter (fun c => c ≠ "")

/-- Lexical normalization: `.` is dropped, `..` pops the last component
(a no-op at the root), everything else is appended. -/
def normComps : List String → List String → List String
  | acc, [] => acc
  | acc, comp :: rest =>
    if comp = "." then normComps acc rest
    else if comp = ".." then normComps acc.dropLast rest
    else normComps (acc ++ [comp]) rest

/-- Render an absolute path from components. -/
def joinPath (comps : List String) : String :=
  "/" ++ joinWith "/" comps

/-- Node `path.resolve(root, rel)` for an absolute `root`: an absolute
`rel` ignores the root, otherwise the concatenation is normalized
lexically (no symlink handling). -/
def pathResolve (root rel : String) : String :=
  let base := if strStartsWith rel "/" then [] else pathComps root
  joinPath (normComps base (pathComps rel))

/-- Node `path.dirname` for absolute paths. -/
def dirname (p : String) : String :=
  joinPath (pathComps p).dropLast

/-! ## The path sandbox — `withinWorkspace` (src/engine/sanitize.ts) -/

/-- `withinWorkspace(root, rel)`: lexically resolve `rel` against
`root` and reject the result unless it begins with `root` as a string
prefix; on success return the resolved absolute path. -/
def withinWorkspace (root rel : String) : Except String String :=
  if strStartsWith (pathResolve root rel) root then Except.ok (pathResolve root rel)
  else Except.error ("Blocked path outside workspace: " ++ rel)

/-- What it means for a resolved absolute path to lie *inside* a root
directory (the root itself, or a descendant below `root ++ "/"`).
Stated from the specification's words, for comparison with the string
prefix test the code performs. -/
def insideRoot (root p : String) : Bool :=
  p == root || strStartsWith p (root ++ "/")

/-! ## Literal and pattern replacement — `safeEdit`'s find/replace -/

/-- Case-sensitive or case-insensitive anchored match of a literal
pattern at the head of the input. -/
def matchesAt (ci : Bool) (pat cs : List Char) : Bool :=
  if ci then (cs.take pat.length).map Char.toLower == pat.map Char.toLower
  else cs.take pat.length == pat

/-- Global replacement of a literal pattern (JavaScript
`String.replace` with a `g`-flagged regex whose body has no
metacharacters): every match is replaced; an empty pattern matches at
every position, including the end. -/
def reReplAll (ci : Bool) (pat : List Char) (repl : String) : Nat → List Char → String
  | 0, cs => String.mk cs
  | fuel + 1, cs =>
    if matchesAt ci pat cs then
      if pat.isEmpty then
        match cs with
        | [] => repl
        | c :: rest => repl ++ String.mk [c] ++ reReplAll ci pat repl fuel rest
      else repl ++ reReplAll ci pat repl fuel (cs.drop pat.length)
    else
      match cs with
      | [] => ""
      | c :: rest => String.mk [c] ++ reReplAll ci pat repl fuel rest

/-- First-occurrence replacement of a literal pattern (JavaScript
`String.replace` with a non-global regex whose body has no
metacharacters). -/
def reReplFirst (ci : Bool) (pat : List Char) (repl : String) : Nat → List Char → String
  | 0, cs => String.mk cs
  | fuel + 1, cs =>
    if matchesAt ci pat cs then repl ++ String.mk (cs.drop pat.length)
    else
      match cs with
      | [] => ""
      | c :: rest => String.mk [c] ++ reReplFirst ci pat repl fuel rest

/-- Models `data.replace(new RegExp(body, flags), repl)` for pattern
bodies without regex metacharacters (the only bodies this development
evaluates), honoring the `i` and `g` flags; `$`-substitution in the
replacement text is not modelled (never exercised). -/
def jsRegexReplace (body flags data repl : String) : String :=
  let ci := flags.data.contains 'i'
  let g := flags.data.contains 'g'
  if g then reReplAll ci body.data repl (data.data.length + 1) data.data
  else reReplFirst ci body.data repl (data.data.length + 1) data.data

/-- JavaScript `data.split(find).join(repl)` — the literal branch of
`safeEdit`. -/
def jsSplitJoin (data find repl : String) : String :=
  joinWith repl (jsSplit data find)

/-- The pure find/replace computation of `safeEdit`
(src/engine/executor.ts): a nonempty `find` that both starts *and*
ends with `/` selects the regex branch, with the body and flags carved
out around the last `/`; everything else is a literal global
split/join replacement. -/
def editApply (data find repl : String) : String :=
  if find ≠ "" ∧ strStartsWith find "/" = true ∧ strEndsWith find "/" = true then
    let last := (lastIdxOf find.data '/').getD 0
    let body := strSlice find 1 last
    let flags := strSlice find (last + 1) find.data.length
    jsRegexReplace body flags data repl
  else jsSplitJoin data find repl

/-! ## Data model: filesystem, configuration, steps, plans, results -/

/-- The filesystem state: contents of files and the set of directories
known to exist. -/
structure FS where
  files : String → Option String
  dirs : String → Bool

/-- Write (or overwrite) a file. -/
def FS.writeFile (fs : FS) (p c : String) : FS :=
  { fs with files := fun q => if q = p then some c else fs.files q }

/-- Delete a file if it exists (errors are swallowed by the caller). -/
def FS.deleteFile (fs : FS) (p : String) : FS :=
  { fs with files := fun q => if q = p then none else fs.files q }

/-- `createDirectory` (idempotent; creation errors are swallowed). -/
def FS.mkDir (fs : FS) (d : String) : FS :=
  { fs with dirs := fun q => if q = d then true else fs.dirs q }

/-- The filesystem with no files and no directories. -/
def emptyFS : FS := { files := fun _ => none, dirs := fun _ => false }

/-- The extension settings consulted by the executor
(`openFilesAfterWrite`/`maxFilesToOpen` only drive which editors are
opened afterwards and are omitted). -/
structure Cfg where
  dryRun : Bool
  allowShell : Bool
  allowInstall : Bool
deriving DecidableEq

/-- A plan step as it exists at runtime: coercion only checks the
`action` tag, so every other field may be missing.  A field whose
runtime value is not a string (resp. not an array / not a boolean) is
modelled as absent; the executor's falsy/`typeof` checks agree with
this on everything exercised here. -/
structure Step where
  action : String
  path : Option String := none
  content : Option String := none
  find : Option String := none
  replace : Option String := none
  cmd : Option String := none
  cwd : Option String := none
  packages : Option (List String) := none
  dev : Option Bool := none
deriving DecidableEq

/-- A plan: goal, root (relative to the workspace folder), steps. -/
structure Plan where
  goal : String
  root : String
  steps : List Step
deriving DecidableEq

/-- One per-step result, tagged success (with optional captured
stdout/stderr) or failure (with an error message). -/
structure SResult where
  step : String
  ok : Bool
  stdout : Option String := none
  stderr : Option String := none
  error : Option String := none
deriving DecidableEq

/-- JavaScript truthiness on an optional string: `none` and `""` are
falsy. -/
def optNonempty : Option String → Option String
  | some s => if s = "" then none else some s
  | none => none

/-- `o || "."` on an optional string field. -/
def jsOrDot (o : Option String) : String :=
  match optNonempty o with
  | some s => s
  | none => "."

/-- `root || "."` on the (always-string) plan root. -/
def rootOrDot (r : String) : String := if r = "" then "." else r

/-! ## The executor (src/engine/executor.ts) -/

/-- Opaque subprocess runner: command and resolved cwd to captured
stdout/stderr. -/
abbrev ShellExec := String → String → String × String

/-- A subprocess runner used by concrete instances; never consulted on
the paths the claims exercise. -/
def shNull : ShellExec := fun _ _ => ("", "")

/-- The message thrown by `requireTrustedWorkspace`. -/
def trustError : String :=
  "This workspace is not trusted. Enable Workspace Trust to allow file modifications or shell execution."

/-- `ensureDir`: create a directory, swallowing errors. -/
def ensureDir (fs : FS) (d : String) : FS := fs.mkDir d

/-- `safeWrite`: sandbox the path; outside dry-run, ensure the parent
directory and overwrite the file. -/
def safeWrite (cfg : Cfg) (root rel content : String) (fs : FS) : Except String FS := do
  let uri ← withinWorkspace root rel
  if cfg.dryRun then return fs
  else return ((ensureDir fs (dirname uri)).writeFile uri content)

/-- `safeAppend`: sandbox the path; outside dry-run, ensure the parent
directory, read the prior content (missing file reads as `""`), and
write the concatenation. -/
def safeAppend (cfg : Cfg) (root rel content : String) (fs : FS) : Except String FS := do
  let uri ← withinWorkspace root rel
  if cfg.dryRun then return fs
  else
    let fs1 := ensureDir fs (dirname uri)
    let old := (fs1.files uri).getD ""
    return (fs1.writeFile uri (old ++ content))

/-- `safeEdit`: sandbox the path; a missing file is a hard error in
every mode; compute the replacement; persist it only outside dry-run. -/
def safeEdit (cfg : Cfg) (root rel find repl : String) (fs : FS) : Except String FS := do
  let uri ← withinWorkspace root rel
  match fs.files uri with
  | none => Except.error ("Cannot edit missing file: " ++ rel)
  | some data =>
    let out := editApply data find repl
    if cfg.dryRun then return fs
    else return (fs.writeFile uri out)

/-- `runShell`: the shell gate is checked first, then the cwd is
sandboxed, and only then is dry-run consulted (dry-run returns empty
captured output without invoking a subprocess). -/
def runShell (cfg : Cfg) (root : String) (sh : ShellExec) (cmd cwdRel : String) :
    Except String (String × String) := do
  if cfg.allowShell = false then
    Except.error "Shell execution is disabled in settings (myCursor.allowShell=false)."
  else do
    let cwdUri ← withinWorkspace root cwdRel
    if cfg.dryRun then return ("", "")
    else return sh cmd cwdUri

/-- One character of JSON string escaping (`JSON.stringify`). -/
def jsonEscChar (c : Char) : String :=
  if c = Char.ofNat 34 then "\\\""
  else if c = '\\' then "\\\\"
  else if c = '\n' then "\\n"
  else if c = '\r' then "\\r"
  else if c = '\t' then "\\t"
  else if c = Char.ofNat 8 then "\\b"
  else if c = Char.ofNat 12 then "\\f"
  else if c.toNat < 32 then
    "\\u00" ++ String.mk [Char.ofNat (48 + c.toNat / 16),
      (if c.toNat % 16 < 10 then Char.ofNat (48 + c.toNat % 16)
       else Char.ofNat (87 + c.toNat % 16))]
  else String.mk [c]

/-- `JSON.stringify` of a string. -/
def jsonQuote (s : String) : String :=
  String.mk [Char.ofNat 34] ++ String.join (s.data.map jsonEscChar) ++ String.mk [Char.ofNat 34]

/-- `installPkgs`: the install gate is its own check; an empty package
list is a no-op success; otherwise a single `npm i` invocation with
individually-quoted package names is delegated to `runShell`. -/
def installPkgs (cfg : Cfg) (root : String) (sh : ShellExec)
    (pkgs : List String) (dev : Bool) (cwdRel : String) :
    Except String (String × String) :=
  if cfg.allowInstall = false then
    Except.error "Package installation is disabled (myCursor.allowInstall=false)."
  else if pkgs.isEmpty then Except.ok ("", "")
  else
    runShell cfg root sh
      ("npm i " ++ (if dev then "-D" else "") ++ " " ++ joinWith " " (pkgs.map jsonQuote))
      cwdRel

/-- The stable per-step display label `"#<1-based index> <action>"`. -/
def stepTag (i : Nat) (step : Step) : String :=
  "#" ++ toString (i + 1) ++ " " ++ step.action

/-- The body of the executor's per-step `switch`, before the
`try`/`catch`: on success, optional captured output plus the updated
filesystem; errors propagate to the catch. -/
def execStepE (cfg : Cfg) (root : String) (sh : ShellExec) (step : Step) (fs : FS) :
    Except String (Option (String × String) × FS) :=
  if step.action = "mkdir" then
    if cfg.dryRun then Except.ok (none, fs)
    else (withinWorkspace root (jsOrDot step.path)).map (fun d => (none, ensureDir fs d))
  else if step.action = "write" then
    match optNonempty step.path with
    | none => Except.error "write: missing path"
    | some p => (safeWrite cfg root p (step.content.getD "") fs).map (fun fs' => (none, fs'))
  else if step.action = "append" then
    match optNonempty step.path with
    | none => Except.error "append: missing path"
    | some p => (safeAppend cfg root p (step.content.getD "") fs).map (fun fs' => (none, fs'))
  else if step.action = "edit" then
    match optNonempty step.path with
    | none => Except.error "edit: missing path"
    | some p =>
      match step.find with
      | none => Except.error "edit: find must be string (text or /regex/flags)"
      | some f =>
        (safeEdit cfg root p f (step.replace.getD "") fs).map (fun fs' => (none, fs'))
  else if step.action = "shell" then
    match optNonempty step.cmd with
    | none => Except.error "shell: missing cmd"
    | some c => (runShell cfg root sh c (jsOrDot step.cwd)).map (fun io => (some io, fs))
  else if step.action = "install" then
    (installPkgs cfg root sh (step.packages.getD []) (step.dev.getD false) (jsOrDot step.cwd)).map
      (fun io => (some io, fs))
  else Except.error ("Unknown action: " ++ step.action)

/-- One step under the executor's `try`/`catch`: a thrown error becomes
a failure result carrying the message, and leaves the filesystem as the
step found it. -/
def execStep (cfg : Cfg) (root : String) (sh : ShellExec) (i : Nat) (step : Step) (fs : FS) :
    SResult × FS :=
  match execStepE cfg root sh step fs with
  | Except.ok (io, fs') =>
    ({ step := stepTag i step, ok := true, stdout := io.map Prod.fst, stderr := io.map Prod.snd },
      fs')
  | Except.error e => ({ step := stepTag i step, ok := false, error := some e }, fs)

/-- The executor's step loop: strictly sequential, one result per step,
continue-on-error. -/
def execSteps (cfg : Cfg) (root : String) (sh : ShellExec) :
    Nat → List Step → FS → List SResult × FS
  | _, [], fs => ([], fs)
  | i, s :: rest, fs =>
    let out := execStep cfg root sh i s fs
    let outs := execSteps cfg root sh (i + 1) rest out.2
    (out.1 :: outs.1, outs.2)

/-- `executePlan`: resolve the plan root through the sandbox (an
escaping root aborts the whole run), enforce workspace trust whenever
dry-run is off, then interpret the steps in order.  The post-run file
tree listing is informational only and omitted. -/
def executePlan (cfg : Cfg) (trusted : Bool) (wsPath : String) (sh : ShellExec)
    (plan : Plan) (fs : FS) : Except String (List SResult × FS) := do
  let root ← withinWorkspace wsPath (rootOrDot plan.root)
  if cfg.dryRun = false ∧ trusted = false then Except.error trustError
  else Except.ok (execSteps cfg root sh 0 plan.steps fs)

/-! ## Snapshot and revert (src/extension.ts) -/

/-- The captured pre-execution snapshot for one plan: the workspace
folder, the plan root, and for every touched relative path its prior
content (`none` marks a file that did not exist). -/
structure RevertRecord where
  folderPath : String
  root : String
  before : List (String × Option String)
deriving DecidableEq

/-- The in-memory revert store, keyed by the plan's canonical
serialization. -/
abbrev RevertStore := List (String × RevertRecord)

/-- `Map.set`: overwrite an existing key or append a new binding. -/
def storeSet (st : RevertStore) (k : String) (v : RevertRecord) : RevertStore :=
  if (st.find? (fun e => e.1 == k)).isSome then
    st.map (fun e => if e.1 == k then (k, v) else e)
  else st ++ [(k, v)]

/-- `Map.get`. -/
def storeGet (st : RevertStore) (k : String) : Option RevertRecord :=
  (st.find? (fun e => e.1 == k)).map Prod.snd

/-- `stableStringify` applied to a `Plan` value: `JSON.stringify` with
all object keys in sorted order (for these records the sorted orders
are `goal, root, steps` and `action, cmd, content, cwd, dev, find,
packages, path, replace`); absent optional fields are skipped, exactly
as `JSON.stringify` skips `undefined` properties. -/
def stepKeyJson (s : Step) : String :=
  let field := fun (k : String) (v : Option String) =>
    match v with
    | some str => [jsonQuote k ++ ":" ++ jsonQuote str]
    | none => []
  String.mk [Char.ofNat 123] ++
    joinWith ","
      ([jsonQuote "action" ++ ":" ++ jsonQuote s.action]
        ++ field "cmd" s.cmd ++ field "content" s.content ++ field "cwd" s.cwd
        ++ (match s.dev with
            | some b => [jsonQuote "dev" ++ ":" ++ (if b then "true" else "false")]
            | none => [])
        ++ field "find" s.find
        ++ (match s.packages with
            | some ps =>
              [jsonQuote "packages" ++ ":[" ++ joinWith "," (ps.map jsonQuote) ++ "]"]
            | none => [])
        ++ field "path" s.path ++ field "replace" s.replace)
    ++ String.mk [Char.ofNat 125]

/-- The canonical (deterministically key-sorted) serialization of a
plan, used as its identity in the revert store. -/
def planKey (p : Plan) : String :=
  String.mk [Char.ofNat 123] ++
    jsonQuote "goal" ++ ":" ++ jsonQuote p.goal ++ "," ++
    jsonQuote "root" ++ ":" ++ jsonQuote p.root ++ "," ++
    jsonQuote "steps" ++ ":[" ++ joinWith "," (p.steps.map stepKeyJson) ++ "]" ++
    String.mk [Char.ofNat 125]

/-- `collectTouchedFiles`: the deduplicated (insertion-ordered) relative
paths named by the plan's `write`/`append`/`edit` steps with a truthy
`path`. -/
def collectTouchedFiles (plan : Plan) : List String :=
  plan.steps.foldl
    (fun acc s =>
      match optNonempty s.path with
      | some p =>
        if s.action = "write" ∨ s.action = "append" ∨ s.action = "edit" then
          if p ∈ acc then acc else acc ++ [p]
        else acc
      | none => acc)
    []

/-- The snapshot loop body: sandbox each touched path and read its
prior content (`readUtf8IfExists` never throws, so only a sandbox
failure aborts the loop); on abort the entries gathered so far are
kept, matching the `try`/`catch` around the loop in `runPlan`. -/
def snapLoop (rootUri : String) (fs : FS) : List String → List (String × Option String)
  | [] => []
  | rel :: rest =>
    match withinWorkspace rootUri rel with
    | Except.error _ => []
    | Except.ok uri => (rel, fs.files uri) :: snapLoop rootUri fs rest

/-- The pre-execution snapshot of `runPlan`: resolve the plan root,
then record each touched path's prior content; any sandbox failure
aborts the loop (logged as a warning, not fatal to the run). -/
def snapshotBefore (wsPath : String) (plan : Plan) (fs : FS) : List (String × Option String) :=
  match withinWorkspace wsPath (rootOrDot plan.root) with
  | Except.error _ => []
  | Except.ok rootUri => snapLoop rootUri fs (collectTouchedFiles plan)

/-- The failure brief built from a result list: `none` when every step
succeeded, otherwise the `"- <label>: <error>"` lines joined by
newlines. -/
def failureBrief (results : List SResult) : Option String :=
  let failed := results.filter (fun r => r.ok = false)
  if failed.isEmpty then none
  else some (joinWith "\n" (failed.map (fun r => "- " ++ r.step ++ ": " ++ r.error.getD "")))

/-- The outcome of one `runPlan` call: the filesystem, the revert
store, and the failure brief retained for the repair loop. -/
structure RunOutcome where
  fs : FS
  store : RevertStore
  brief : Option String

/-- `runPlan` (src/extension.ts): snapshot the touched files, execute
the plan, store the revert record only when at least one path was
captured, and retain the failure brief (an executor exception becomes
a `runtime exception` brief and skips the store update). -/
def runPlanModel (cfg : Cfg) (trusted : Bool) (wsPath : String) (sh : ShellExec)
    (plan : Plan) (fs : FS) (store : RevertStore) : RunOutcome :=
  let before := snapshotBefore wsPath plan fs
  match executePlan cfg trusted wsPath sh plan fs with
  | Except.ok (results, fs') =>
    let store' :=
      if before.isEmpty then store
      else storeSet store (planKey plan)
        { folderPath := wsPath, root := rootOrDot plan.root, before := before }
    { fs := fs', store := store', brief := failureBrief results }
  | Except.error e =>
    { fs := fs, store := store, brief := some ("- runtime exception: " ++ e) }

/-- The revert loop: for every captured path, rewrite the prior content
(creating the parent directory) or delete the file if the marker says
it did not exist.  The surrounding `try`/`catch` aborts on a sandbox
failure; for records created by `runPlan` every captured path already
passed the same sandbox check, so the error branch is unreachable
there. -/
def revLoop (rootUri : String) : List (String × Option String) → FS → Except String FS
  | [], fs => Except.ok fs
  | (rel, prev) :: rest, fs => do
    let uri ← withinWorkspace rootUri rel
    match prev with
    | none => revLoop rootUri rest (fs.deleteFile uri)
    | some c => revLoop rootUri rest ((ensureDir fs (dirname uri)).writeFile uri c)

/-- `revertPlan` (src/extension.ts): recompute the plan's canonical
key, look up the (immutable) snapshot — a missing snapshot is a warning
that leaves the filesystem untouched — and restore every captured
path. -/
def revertPlanModel (plan : Plan) (fs : FS) (store : RevertStore) : Except String FS :=
  match storeGet store (planKey plan) with
  | none => Except.ok fs
  | some record => do
    let rootUri ← withinWorkspace record.folderPath (rootOrDot record.root)
    revLoop rootUri record.before fs

/-! ## The auto-repair loop (src/extension.ts, prompt handler) -/

/-- The auto-repair loop after the initial run:
`while (autoRepair && lastFailuresBrief && attempts < maxRepairAttempts)`,
each iteration incrementing `attempts`, requesting one repair plan from
the generation collaborator (a thrown collaborator error aborts the
whole loop and is surfaced), and re-running it, which replaces the
failure brief.  Returns the number of plan generations performed and
either the surfaced collaborator error or the final failure brief. -/
def repairLoopAux (autoRepair : Bool) (maxAttempts : Nat)
    (gen : Nat → Except String Plan) (run : Plan → Option String) :
    Nat → Option String → Nat × Except String (Option String)
  | attempts, brief =>
    if h : autoRepair = true ∧ brief.isSome = true ∧ attempts < maxAttempts then
      match gen (attempts + 1) with
      | Except.error e => (1, Except.error e)
      | Except.ok p =>
        let out := repairLoopAux autoRepair maxAttempts gen run (attempts + 1) (run p)
        (out.1 + 1, out.2)
    else (0, Except.ok brief)
termination_by attempts _ => maxAttempts - attempts
decreasing_by
  have := h.2.2
  omega

/-- The whole autorun phase: one initial execution, then the bounded
repair loop seeded with its failure brief. -/
def autoRunRepair (autoRepair : Bool) (maxAttempts : Nat)
    (gen : Nat → Except String Plan) (run : Plan → Option String) (plan : Plan) :
    Nat × Except String (Option String) :=
  repairLoopAux autoRepair maxAttempts gen run 0 (run plan)

/-! ## JSON values and `JSON.parse` -/

/-- A parsed JSON value.  Numbers keep their raw token: no claim
inspects numeric values, and this avoids floating point. -/
inductive Json where
  | null : Json
  | jbool (b : Bool) : Json
  | num (raw : String) : Json
  | str (s : String) : Json
  | arr (elems : List Json) : Json
  | obj (members : List (String × Json)) : Json

/-- JSON whitespace (only these four, unlike JavaScript `trim`). -/
def jsonWs (c : Char) : Bool := c == ' ' || c == '\t' || c == '\n' || c == '\r'

/-- Skip JSON whitespace. -/
def skipWs (cs : List Char) : List Char := cs.dropWhile jsonWs

/-- The double-quote character. -/
def qChar : Char := Char.ofNat 34

/-- The left brace character. -/
def lbrace : Char := Char.ofNat 123

/-- The right brace character. -/
def rbrace : Char := Char.ofNat 125

/-- Hexadecimal digit value. -/
def hexVal? (c : Char) : Option Nat :=
  if c.toNat ≥ 48 ∧ c.toNat ≤ 57 then some (c.toNat - 48)
  else if c.toNat ≥ 97 ∧ c.toNat ≤ 102 then some (c.toNat - 87)
  else if c.toNat ≥ 65 ∧ c.toNat ≤ 70 then some (c.toNat - 55)
  else none

/-- JSON string body parser (after the opening quote): handles the
standard escapes; raw control characters are rejected.  A `\uXXXX`
escape naming an unpaired surrogate is mapped through `Char.ofNat`'s
fallback (never exercised here). -/
def pStr : Nat → List Char → Option (String × List Char)
  | 0, _ => none
  | _ + 1, [] => none
  | fuel + 1, c :: rest =>
    if c = qChar then some ("", rest)
    else if c = '\\' then
      match rest with
      | [] => none
      | e :: rest2 =>
        let cont := fun (d : Char) (rem : List Char) =>
          (pStr fuel rem).map (fun p => (String.mk [d] ++ p.1, p.2))
        if e = qChar then cont qChar rest2
        else if e = '\\' then cont '\\' rest2
        else if e = '/' then cont '/' rest2
        else if e = 'b' then cont (Char.ofNat 8) rest2
        else if e = 'f' then cont (Char.ofNat 12) rest2
        else if e = 'n' then cont '\n' rest2
        else if e = 'r' then cont '\r' rest2
        else if e = 't' then cont '\t' rest2
        else if e = 'u' then
          match rest2 with
          | h1 :: h2 :: h3 :: h4 :: rest3 =>
            match hexVal? h1, hexVal? h2, hexVal? h3, hexVal? h4 with
            | some a, some b, some c3, some d4 =>
              cont (Char.ofNat (a * 4096 + b * 256 + c3 * 16 + d4)) rest3
            | _, _, _, _ => none
          | _ => none
        else none
    else if c.toNat < 32 then none
    else (pStr fuel rest).map (fun p => (String.mk [c] ++ p.1, p.2))

/-- JSON integer part: `0` or a nonzero digit followed by digits. -/
def pInt : List Char → Option (List Char × List Char)
  | [] => none
  | c :: rest =>
    if c = '0' then some ([c], rest)
    else if c.isDigit then
      let split := rest.span Char.isDigit
      some (c :: split.1, split.2)
    else none

/-- JSON fraction part (possibly empty; a bare `.` is rejected). -/
def pFrac : List Char → Option (List Char × List Char)
  | [] => some ([], [])
  | c :: rest =>
    if c = '.' then
      let split := rest.span Char.isDigit
      if split.1.isEmpty then none else some (c :: split.1, split.2)
    else some ([], c :: rest)

/-- JSON exponent part (possibly empty; a bare `e` is rejected). -/
def pExp : List Char → Option (List Char × List Char)
  | [] => some ([], [])
  | c :: rest =>
    if c = 'e' ∨ c = 'E' then
      match rest with
      | [] => none
      | s :: rest2 =>
        if s = '+' ∨ s = '-' then
          let split := rest2.span Char.isDigit
          if split.1.isEmpty then none else some (c :: s :: split.1, split.2)
        else
          let split := rest.span Char.isDigit
          if split.1.isEmpty then none else some (c :: split.1, split.2)
    else some ([], c :: rest)

/-- JSON number token (kept raw). -/
def pNum (cs : List Char) : Option (String × List Char) := do
  let start := match cs with
    | c :: r => if c = '-' then ([c], r) else (([] : List Char), cs)
    | [] => ([], cs)
  let ipart ← pInt start.2
  let fpart ← pFrac ipart.2
  let epart ← pExp fpart.2
  some (String.mk (start.1 ++ ipart.1 ++ fpart.1 ++ epart.1), epart.2)

mutual

/-- JSON value parser (fuel-indexed; the callers provide ample fuel). -/
def pVal : Nat → List Char → Option (Json × List Char)
  | 0, _ => none
  | _ + 1, [] => none
  | fuel + 1, c :: rest =>
    if c = qChar then (pStr (rest.length + 1) rest).map (fun p => (Json.str p.1, p.2))
    else if c = lbrace then
      match skipWs rest with
      | d :: r2 =>
        if d = rbrace then some (Json.obj [], r2)
        else (pMembers fuel (skipWs rest)).map (fun p => (Json.obj p.1, p.2))
      | [] => none
    else if c = '[' then
      match skipWs rest with
      | d :: r2 =>
        if d = ']' then some (Json.arr [], r2)
        else (pElems fuel (skipWs rest)).map (fun p => (Json.arr p.1, p.2))
      | [] => none
    else if c = 't' then
      if rest.take 3 = ['r', 'u', 'e'] then some (Json.jbool true, rest.drop 3) else none
    else if c = 'f' then
      if rest.take 4 = ['a', 'l', 's', 'e'] then some (Json.jbool false, rest.drop 4) else none
    else if c = 'n' then
      if rest.take 3 = ['u', 'l', 'l'] then some (Json.null, rest.drop 3) else none
    else (pNum (c :: rest)).map (fun p => (Json.num p.1, p.2))

/-- JSON array elements (after the opening bracket, nonempty case). -/
def pElems : Nat → List Char → Option (List Json × List Char)
  | 0, _ => none
  | fuel + 1, cs => do
    let v ← pVal fuel cs
    match skipWs v.2 with
    | c :: r3 =>
      if c = ',' then do
        let es ← pElems fuel (skipWs r3)
        some (v.1 :: es.1, es.2)
      else if c = ']' then some ([v.1], r3)
      else none
    | [] => none

/-- JSON object members (after the opening brace, nonempty case). -/
def pMembers : Nat → List Char → Option (List (String × Json) × List Char)
  | 0, _ => none
  | _ + 1, [] => none
  | fuel + 1, c :: rest =>
    if c = qChar then do
      let k ← pStr (rest.length + 1) rest
      match skipWs k.2 with
      | colon :: r3 =>
        if colon = ':' then do
          let v ← pVal fuel (skipWs r3)
          match skipWs v.2 with
          | d :: r6 =>
            if d = ',' then do
              let ms ← pMembers fuel (skipWs r6)
              some ((k.1, v.1) :: ms.1, ms.2)
            else if d = rbrace then some ([(k.1, v.1)], r6)
            else none
          | [] => none
        else none
      | [] => none
    else none

end

/-- `JSON.parse`: parse one value surrounded by optional JSON
whitespace; trailing garbage rejects the whole input. -/
def jsonParse (s : String) : Option Json :=
  match pVal (2 * s.data.length + 4) (skipWs s.data) with
  | some (v, rest) => if (skipWs rest).isEmpty then some v else none
  | none => none

/-- JavaScript property access `j[k]` on a parsed value: only objects
have (string-keyed) own properties here; a duplicated key takes its
last occurrence, as in `JSON.parse`. -/
def Json.getField : Json → String → Option Json
  | Json.obj ms, k => (ms.reverse.find? (fun m => m.1 == k)).map Prod.snd
  | _, _ => none

/-! ## Plan coercion — `coerceJsonToPlan` (src/engine/plan.ts) -/

/-- The `^```json\s*` fence test (case-insensitive on the word). -/
def fenceJsonPrefix (s : String) : Bool :=
  (s.data.take 7).map Char.toLower == ("```json").data

/-- The fence-stripping of `coerceJsonToPlan`: drop a leading
```` ```json ```` (then any whitespace), else a leading ```` ``` ````
(then any whitespace) — sequentially, so a double fence loses both —
then a trailing ```` ``` ````. -/
def stripFences (s : String) : String :=
  let s1 := if fenceJsonPrefix s then String.mk ((s.data.drop 7).dropWhile jsWhitespace) else s
  let s2 :=
    if strStartsWith s1 "```" then String.mk ((s1.data.drop 3).dropWhile jsWhitespace) else s1
  if strEndsWith s2 "```" then String.mk (s2.data.take (s2.data.length - 3)) else s2

/-- The cleaned text: trim, strip fences, trim again. -/
def cleanedOf (raw : String) : String := jsTrim (stripFences (jsTrim raw))

/-- The `PlanParseError` message. -/
def parseErrMsg : String := "Failed to parse JSON plan from model response."

/-- The two-attempt parse of `coerceJsonToPlan`: the whole cleaned
text, then — on failure — the substring from the first `\x7b` to the
last `\x7d` (a failure of that second `JSON.parse` escapes as a raw
`SyntaxError`; only the no-braces case produces the `PlanParseError`
message). -/
def coerceParsed (raw : String) : Except String Json :=
  let cleaned := cleanedOf raw
  match jsonParse cleaned with
  | some v => Except.ok v
  | none =>
    match cleaned.data.findIdx? (fun c => c == lbrace), lastIdxOf cleaned.data rbrace with
    | some first, some last =>
      match jsonParse (strSlice cleaned first (last + 1)) with
      | some v => Except.ok v
      | none => Except.error "SyntaxError: Unexpected token in JSON"
    | _, _ => Except.error parseErrMsg

/-- A string-valued field of a raw step object (non-string values are
modelled as absent, see `Step`). -/
def strField (j : Json) (k : String) : Option String :=
  match j.getField k with
  | some (Json.str s) => some s
  | _ => none

/-- The runtime `Step` carried by a coerced plan: the raw object's
known fields, fetched by property access. -/
def stepOfJson (j : Json) : Step :=
  { action := (strField j "action").getD ""
    path := strField j "path"
    content := strField j "content"
    find := strField j "find"
    replace := strField j "replace"
    cmd := strField j "cmd"
    cwd := strField j "cwd"
    packages :=
      match j.getField "packages" with
      | some (Json.arr es) =>
        some (es.filterMap (fun e => match e with | Json.str s => some s | _ => none))
      | _ => none
    dev := match j.getField "dev" with | some (Json.jbool b) => some b | _ => none }

/-- The six known action kinds. -/
def knownActions : List String := ["mkdir", "write", "append", "edit", "shell", "install"]

/-- The normalization `coerceJsonToPlan` applies to a parsed value:
`goal` and `root` coerced to strings with defaults (`root` trimmed),
`steps` coerced to a sequence (empty if absent or not a sequence) and
filtered to the six known action kinds; no field-completeness
validation. -/
def buildPlanFields (v : Json) : Plan :=
  let goal := match v.getField "goal" with | some (Json.str s) => s | _ => "(no summary)"
  let root :=
    match v.getField "root" with
    | some (Json.str s) => if jsTrim s = "" then "." else jsTrim s
    | _ => "."
  let rawSteps := match v.getField "steps" with | some (Json.arr es) => es | _ => []
  let kept := rawSteps.filter (fun s =>
    match s.getField "action" with
    | some (Json.str a) => knownActions.contains a
    | _ => false)
  { goal := goal, root := root, steps := kept.map stepOfJson }

/-- `coerceJsonToPlan` as the source implements it: the two-attempt
parse, then field normalization — which begins with the property
access `obj.goal`, a `TypeError` when the parsed value is `null`. -/
def coerceJsonToPlan (raw : String) : Except String Plan :=
  (coerceParsed raw).bind
    (fun v =>
      match v with
      | Json.null => Except.error "TypeError: Cannot read properties of null (reading 'goal')"
      | _ => Except.ok (buildPlanFields v))

/-- Modelled from the spec (claim C9's wording): the same coercion
procedure, but on *every* successful parse it "returns a Plan whose
goal and root are strings with defaults applied" — with no provision
for a crash on a parsed `null`. -/
def coercePlanFromSpec (raw : String) : Except String Plan :=
  (coerceParsed raw).map buildPlanFields

/-! ## Well-formedness of a mutating step under dry-run

The conditions under which the executor's dry-run validation of a
mutating step succeeds: `mkdir` always (dry-run skips even the path
resolution), `write`/`append` need a truthy in-sandbox path, `edit`
additionally needs a string `find` and an existing target file. -/

/-- A mutating step the dry-run executor reports as successful. -/
def dryWellFormed (root : String) (fs : FS) (st : Step) : Prop :=
  st.action = "mkdir"
  ∨ ((st.action = "write" ∨ st.action = "append") ∧
      ∃ p, optNonempty st.path = some p ∧ strStartsWith (pathResolve root p) root = true)
  ∨ (st.action = "edit" ∧
      ∃ p f, optNonempty st.path = some p ∧ st.find = some f
        ∧ strStartsWith (pathResolve root p) root = true
        ∧ (fs.files (pathResolve root p)).isSome = true)

/-! ## Concrete instances used by the theorems below -/

/-- Dry-run configuration, shell and install disabled (the defaults). -/
def cfgDry : Cfg := { dryRun := true, allowShell := false, allowInstall := false }

/-- Live (non-dry-run) configuration, shell and install disabled. -/
def cfgLive : Cfg := { dryRun := false, allowShell := false, allowInstall := false }

/-- Dry-run configuration with the shell gate enabled. -/
def cfgShellDry : Cfg := { dryRun := true, allowShell := true, allowInstall := false }

/-- Dry-run configuration with both the shell and install gates
enabled. -/
def cfgFull : Cfg := { dryRun := true, allowShell := true, allowInstall := true }

/-- A mkdir step whose path escapes the workspace. -/
def stepEscMkdir : Step := { action := "mkdir", path := some "../mk" }

/-- An install step with packages whose cwd escapes the workspace. -/
def stepEscInstall : Step :=
  { action := "install", packages := some ["pkg"], cwd := some "../iw" }

/-- An install step with no package list and an escaping cwd. -/
def stepInstallEmpty : Step := { action := "install", cwd := some "../iw" }

/-- A write step whose path escapes the workspace. -/
def stepEscWrite : Step := { action := "write", path := some "../../evil", content := some "x" }

/-- A shell step whose cwd escapes the workspace. -/
def stepEscShell : Step := { action := "shell", cmd := some "ls", cwd := some "../cwd" }

/-- The edit step of the spec's regex example (`/foo/gi`). -/
def editStepC2 : Step :=
  { action := "edit", path := some "f.txt", find := some "/foo/gi", replace := some "bar" }

/-- A filesystem holding `f.txt` with content `fooFOObaz`. -/
def fsC2 : FS :=
  { files := fun q => if q = "/w/f.txt" then some "fooFOObaz" else none, dirs := fun _ => false }

/-- An edit step against a missing file. -/
def editStepMiss : Step :=
  { action := "edit", path := some "missing.txt", find := some "x", replace := some "y" }

/-- An edit step with an empty `find`. -/
def editStepEmptyFind : Step :=
  { action := "edit", path := some "f.txt", find := some "", replace := some "-" }

/-- A plain in-sandbox write step. -/
def stepWriteA : Step := { action := "write", path := some "a.txt", content := some "hi" }

/-- A plan whose root itself escapes the workspace. -/
def planC3bad : Plan := { goal := "g", root := "../x", steps := [] }

/-- A plan with one escaping and one failing step. -/
def planC3w : Plan := { goal := "g", root := ".", steps := [stepEscWrite, editStepMiss] }

/-- A one-write-step plan. -/
def planC5w : Plan := { goal := "g", root := ".", steps := [stepWriteA] }

/-- A generation collaborator that always returns `planC5w`. -/
def genW : Nat → Except String Plan := fun _ => Except.ok planC5w

/-- An execution that always reports a failure brief. -/
def runFailW : Plan → Option String := fun _ => some "- #1 write: fail"

/-- A fenced model response with a content-less write step and an
unknown action. -/
def rawC9w : String :=
  "```json\n\x7b\"goal\":\"g\",\"steps\":[\x7b\"action\":\"write\",\"path\":\"a\"\x7d,\x7b\"action\":\"bogus\"\x7d]\x7d\n```"

/-- A plan whose first touched path escapes the sandbox while the
second is legitimate. -/
def planC4bad : Plan :=
  { goal := "g", root := ".",
    steps := [{ action := "write", path := some "../../e", content := some "x" },
              { action := "write", path := some "a", content := some "x" }] }

/-- A plan overwriting one existing and one new file. -/
def planC4good : Plan :=
  { goal := "g", root := ".",
    steps := [{ action := "write", path := some "old.txt", content := some "NEW" },
              { action := "write", path := some "new.txt", content := some "N2" }] }

/-- A filesystem holding only `old.txt`. -/
def fsC4 : FS :=
  { files := fun q => if q = "/w/old.txt" then some "OLD" else none, dirs := fun _ => false }

/-! # Theorems

Shared lemmas first, then one theorem per claim (with its witness and,
for corrected claims, the counterexample). -/

theorem withinWorkspace_ok {root rel : String}
    (h : strStartsWith (pathResolve root rel) root = true) :
    withinWorkspace root rel = Except.ok (pathResolve root rel) := by
  simp [withinWorkspace, h]

theorem withinWorkspace_err {root rel : String}
    (h : strStartsWith (pathResolve root rel) root = false) :
    withinWorkspace root rel = Except.error ("Blocked path outside workspace: " ++ rel) := by
  simp [withinWorkspace, h]

theorem executePlan_eq_ok {cfg : Cfg} {trusted : Bool} {ws : String} {sh : ShellExec}
    {plan : Plan} {fs : FS}
    (hroot : strStartsWith (pathResolve ws (rootOrDot plan.root)) ws = true)
    (htrust : cfg.dryRun = true ∨ trusted = true) :
    executePlan cfg trusted ws sh plan fs =
      Except.ok (execSteps cfg (pathResolve ws (rootOrDot plan.root)) sh 0 plan.steps fs) := by
  unfold executePlan withinWorkspace
  rw [if_pos hroot]
  simp only [Bind.bind, Except.instMonad, Except.bind]
  rw [if_neg (by rcases htrust with h | h <;> simp [h])]

theorem executePlan_ok_elim {cfg : Cfg} {trusted : Bool} {ws : String} {sh : ShellExec}
    {plan : Plan} {fs : FS} {results : List SResult} {fs' : FS}
    (hrun : executePlan cfg trusted ws sh plan fs = Except.ok (results, fs')) :
    strStartsWith (pathResolve ws (rootOrDot plan.root)) ws = true
    ∧ results = (execSteps cfg (pathResolve ws (rootOrDot plan.root)) sh 0 plan.steps fs).1
    ∧ fs' = (execSteps cfg (pathResolve ws (rootOrDot plan.root)) sh 0 plan.steps fs).2 := by
  by_cases hs : strStartsWith (pathResolve ws (rootOrDot plan.root)) ws = true
  · unfold executePlan withinWorkspace at hrun
    rw [if_pos hs] at hrun
    simp only [Bind.bind, Except.instMonad, Except.bind] at hrun
    split at hrun
    · cases hrun
    · injection hrun with h
      exact ⟨hs, (congrArg Prod.fst h).symm, (congrArg Prod.snd h).symm⟩
  · unfold executePlan withinWorkspace at hrun
    rw [if_neg hs] at hrun
    simp only [Bind.bind, Except.instMonad, Except.bind] at hrun
    cases hrun

theorem execStep_label (cfg : Cfg) (root : String) (sh : ShellExec) (i : Nat) (st : Step)
    (fs : FS) : (execStep cfg root sh i st fs).1.step = stepTag i st := by
  cases h : execStepE cfg root sh st fs with
  | ok pr => simp [execStep, h]
  | error e => simp [execStep, h]

theorem execSteps_length (cfg : Cfg) (root : String) (sh : ShellExec) :
    ∀ (steps : List Step) (i : Nat) (fs : FS),
      (execSteps cfg root sh i steps fs).1.length = steps.length
  | [], _, _ => rfl
  | s :: rest, i, fs => by
    simp [execSteps, execSteps_length cfg root sh rest (i + 1)]

theorem execSteps_get? (cfg : Cfg) (root : String) (sh : ShellExec) :
    ∀ (steps : List Step) (i k : Nat) (fs : FS),
      ((execSteps cfg root sh i steps fs).1.get? k).map SResult.step =
        (steps.get? k).map (fun s => stepTag (i + k) s)
  | [], _, k, _ => by simp [execSteps]
  | s :: rest, i, 0, fs => by simp [execSteps, execStep_label]
  | s :: rest, i, k + 1, fs => by
    have ih := execSteps_get? cfg root sh rest (i + 1) k
      (execStep cfg root sh i s fs).2
    simp only [execSteps, List.get?_cons_succ]
    rw [show i + (k + 1) = i + 1 + k by omega]
    exact ih

theorem safeWrite_dry {cfg : Cfg} {root rel content : String} {fs fs' : FS}
    (hdry : cfg.dryRun = true) (h : safeWrite cfg root rel content fs = Except.ok fs') :
    fs' = fs := by
  unfold safeWrite at h
  cases hw : withinWorkspace root rel <;>
    simp [hw, hdry, Bind.bind, Except.instMonad, Except.bind, Pure.pure, Except.pure] at h
  exact h.symm

theorem safeAppend_dry {cfg : Cfg} {root rel content : String} {fs fs' : FS}
    (hdry : cfg.dryRun = true) (h : safeAppend cfg root rel content fs = Except.ok fs') :
    fs' = fs := by
  unfold safeAppend at h
  cases hw : withinWorkspace root rel <;>
    simp [hw, hdry, Bind.bind, Except.instMonad, Except.bind, Pure.pure, Except.pure] at h
  exact h.symm

theorem safeEdit_dry {cfg : Cfg} {root rel find repl : String} {fs fs' : FS}
    (hdry : cfg.dryRun = true) (h : safeEdit cfg root rel find repl fs = Except.ok fs') :
    fs' = fs := by
  unfold safeEdit at h
  cases hw : withinWorkspace root rel <;>
    simp only [hw, hdry, Bind.bind, Except.instMonad, Except.bind, Pure.pure, Except.pure] at h
  · cases h
  · cases hv : fs.files _ <;> rw [hv] at h
    · cases h
    · simp [hdry, Pure.pure, Except.pure] at h
      exact h.symm

theorem execStepE_dry_fs {cfg : Cfg} {root : String} {sh : ShellExec} {st : Step} {fs fs' : FS}
    {io : Option (String × String)} (hdry : cfg.dryRun = true)
    (h : execStepE cfg root sh st fs = Except.ok (io, fs')) : fs' = fs := by
  by_cases h1 : st.action = "mkdir"
  · simp [execStepE, h1, hdry] at h
    exact h.2.symm
  · by_cases h2 : st.action = "write"
    · cases hp : optNonempty st.path
      · simp [execStepE, h1, h2, hp] at h
      next p =>
        cases hs : safeWrite cfg root p (st.content.getD "") fs
        · simp [execStepE, h1, h2, hp, hs, Except.map] at h
        next fsw =>
          have hw := safeWrite_dry hdry hs
          simp [execStepE, h1, h2, hp, hs, Except.map] at h
          exact h.2 ▸ hw
    · by_cases h3 : st.action = "append"
      · cases hp : optNonempty st.path
        · simp [execStepE, h1, h2, h3, hp] at h
        next p =>
          cases hs : safeAppend cfg root p (st.content.getD "") fs
          · simp [execStepE, h1, h2, h3, hp, hs, Except.map] at h
          next fsw =>
            have hw := safeAppend_dry hdry hs
            simp [execStepE, h1, h2, h3, hp, hs, Except.map] at h
            exact h.2 ▸ hw
      · by_cases h4 : st.action = "edit"
        · cases hp : optNonempty st.path
          · simp [execStepE, h1, h2, h3, h4, hp] at h
          next p =>
            cases hf : st.find
            · simp [execStepE, h1, h2, h3, h4, hp, hf] at h
            next f =>
              cases hs : safeEdit cfg root p f (st.replace.getD "") fs
              · simp [execStepE, h1, h2, h3, h4, hp, hf, hs, Except.map] at h
              next fsw =>
                have hw := safeEdit_dry hdry hs
                simp [execStepE, h1, h2, h3, h4, hp, hf, hs, Except.map] at h
                exact h.2 ▸ hw
        · by_cases h5 : st.action = "shell"
          · cases hc : optNonempty st.cmd
            · simp [execStepE, h1, h2, h3, h4, h5, hc] at h
            next c =>
              cases hs : runShell cfg root sh c (jsOrDot st.cwd) <;>
                simp [execStepE, h1, h2, h3, h4, h5, hc, hs, Except.map] at h
              exact h.2.symm
          · by_cases h6 : st.action = "install"
            · cases hs : installPkgs cfg root sh (st.packages.getD []) (st.dev.getD false)
                  (jsOrDot st.cwd) <;>
                simp [execStepE, h1, h2, h3, h4, h5, h6, hs, Except.map] at h
              exact h.2.symm
            · simp [execStepE, h1, h2, h3, h4, h5, h6] at h

theorem execStep_dry_fs {cfg : Cfg} {root : String} {sh : ShellExec} {i : Nat} {st : Step}
    {fs : FS} (hdry : cfg.dryRun = true) : (execStep cfg root sh i st fs).2 = fs := by
  cases h : execStepE cfg root sh st fs with
  | ok pr =>
    cases pr with
    | mk io fs' => simpa [execStep, h] using execStepE_dry_fs hdry h
  | error e => simp [execStep, h]

theorem execSteps_dry_fs (cfg : Cfg) (root : String) (sh : ShellExec)
    (hdry : cfg.dryRun = true) :
    ∀ (steps : List Step) (i : Nat) (fs : FS), (execSteps cfg root sh i steps fs).2 = fs
  | [], _, _ => rfl
  | s :: rest, i, fs => by
    simp [execSteps, execSteps_dry_fs cfg root sh hdry rest (i + 1), execStep_dry_fs hdry]

theorem execSteps_dry_get? (cfg : Cfg) (root : String) (sh : ShellExec)
    (hdry : cfg.dryRun = true) :
    ∀ (steps : List Step) (i k : Nat) (fs : FS) (st : Step), steps.get? k = some st →
      (execSteps cfg root sh i steps fs).1.get? k = some (execStep cfg root sh (i + k) st fs).1
  | [], _, k, _, _, hk => by cases hk ▸ (List.get?_eq_none.mpr (by simp) : ([] : List Step).get? k = none)
  | s :: rest, i, 0, fs, st, hk => by
    simp at hk
    subst hk
    simp [execSteps]
  | s :: rest, i, k + 1, fs, st, hk => by
    simp only [List.get?_cons_succ] at hk
    have ih := execSteps_dry_get? cfg root sh hdry rest (i + 1) k fs st hk
    simp only [execSteps, List.get?_cons_succ]
    rw [execStep_dry_fs hdry]
    rw [show i + 1 + k = i + (k + 1) by omega] at ih
    exact ih

theorem execStep_dry_ok {cfg : Cfg} {root : String} {sh : ShellExec} {i : Nat} {st : Step}
    {fs : FS} (hdry : cfg.dryRun = true) (hwf : dryWellFormed root fs st) :
    (execStep cfg root sh i st fs).1.ok = true := by
  rcases hwf with hact | ⟨hwa, p, hp, hin⟩ | ⟨hact, p, f, hp, hf, hin, hsome⟩
  · simp [execStep, execStepE, hact, hdry]
  · rcases hwa with hact | hact <;>
      simp [execStep, execStepE, hact, hp, safeWrite, safeAppend, withinWorkspace_ok hin,
        hdry, Bind.bind, Except.instMonad, Except.bind, Pure.pure, Except.pure, Except.map]
  · obtain ⟨data, hdata⟩ := Option.isSome_iff_exists.mp hsome
    simp [execStep, execStepE, hact, hp, hf, safeEdit, withinWorkspace_ok hin, hdata, hdry,
      Bind.bind, Except.instMonad, Except.bind, Pure.pure, Except.pure, Except.map]

theorem joinWith_singletons_length (repl : String) :
    ∀ l : List Char,
      (joinWith repl (l.map (fun c => String.mk [c]))).length =
        l.length + (l.length - 1) * repl.length
  | [] => by simp [joinWith]
  | [c] => by simp [joinWith]
  | a :: b :: rest => by
    have ih := joinWith_singletons_length repl (b :: rest)
    simp only [List.map, joinWith, List.length] at ih ⊢
    rw [String.length_append, String.length_append, ih]
    simp only [String.length, List.length, Nat.add_sub_cancel, Nat.add_mul, Nat.one_mul]
    omega

theorem snapLoop_map (rootUri : String) (fs : FS) :
    ∀ rels : List String,
      (∀ rel ∈ rels, strStartsWith (pathResolve rootUri rel) rootUri = true) →
      snapLoop rootUri fs rels =
        rels.map (fun rel => (rel, fs.files (pathResolve rootUri rel)))
  | [], _ => rfl
  | rel :: rest, h => by
    have hh := h rel (by simp)
    simp only [snapLoop, withinWorkspace_ok hh, List.map_cons]
    exact congrArg _ (snapLoop_map rootUri fs rest (fun r hr => h r (by simp [hr])))

theorem revLoop_restore (rootUri : String) (fsOrig : FS) :
    ∀ (entries : List (String × Option String)) (fs1 : FS),
      (∀ e ∈ entries, strStartsWith (pathResolve rootUri e.1) rootUri = true) →
      (∀ e ∈ entries, e.2 = fsOrig.files (pathResolve rootUri e.1)) →
      ∃ fs2, revLoop rootUri entries fs1 = Except.ok fs2
        ∧ (∀ q, fs2.files q =
            if entries.any (fun e => pathResolve rootUri e.1 == q) then fsOrig.files q
            else fs1.files q)
        ∧ (∀ d, fs1.dirs d = true → fs2.dirs d = true)
  | [], fs1, _, _ => ⟨fs1, rfl, by simp, fun _ h => h⟩
  | (rel, prev) :: rest, fs1, hin, hval => by
    have h1 := hin (rel, prev) (by simp)
    have h2 := hval (rel, prev) (by simp)
    have hinR : ∀ e ∈ rest, strStartsWith (pathResolve rootUri e.1) rootUri = true :=
      fun e he => hin e (by simp [he])
    have hvalR : ∀ e ∈ rest, e.2 = fsOrig.files (pathResolve rootUri e.1) :=
      fun e he => hval e (by simp [he])
    cases prev with
    | none =>
      obtain ⟨fs2, hrev, hq, hd⟩ := revLoop_restore rootUri fsOrig rest
        (fs1.deleteFile (pathResolve rootUri rel)) hinR hvalR
      refine ⟨fs2, ?_, ?_, ?_⟩
      · simp only [revLoop, withinWorkspace_ok h1, Bind.bind, Except.instMonad, Except.bind]
        exact hrev
      · intro q
        rw [hq q]
        by_cases hm : rest.any (fun e => pathResolve rootUri e.1 == q)
        · simp [hm]
        · simp only [hm, if_false, List.any_cons, Bool.or_false]
          by_cases hq1 : pathResolve rootUri rel = q
          · subst hq1
            simp [FS.deleteFile, ← h2]
          · simp [FS.deleteFile, (by simpa using hq1 : (pathResolve rootUri rel == q) = false),
              (show ¬(q = pathResolve rootUri rel) from fun h => hq1 h.symm)]
      · intro d hdd
        exact hd d (by simpa [FS.deleteFile] using hdd)
    | some c =>
      obtain ⟨fs2, hrev, hq, hd⟩ := revLoop_restore rootUri fsOrig rest
        ((ensureDir fs1 (dirname (pathResolve rootUri rel))).writeFile (pathResolve rootUri rel) c)
        hinR hvalR
      refine ⟨fs2, ?_, ?_, ?_⟩
      · simp only [revLoop, withinWorkspace_ok h1, Bind.bind, Except.instMonad, Except.bind]
        exact hrev
      · intro q
        rw [hq q]
        by_cases hm : rest.any (fun e => pathResolve rootUri e.1 == q)
        · simp [hm]
        · simp only [hm, if_false, List.any_cons, Bool.or_false]
          by_cases hq1 : pathResolve rootUri rel = q
          · subst hq1
            simp [FS.writeFile, ensureDir, FS.mkDir, ← h2]
          · simp [FS.writeFile, ensureDir, FS.mkDir,
              (by simpa using hq1 : (pathResolve rootUri rel == q) = false),
              (show ¬(q = pathResolve rootUri rel) from fun h => hq1 h.symm)]
      · intro d hdd
        refine hd d ?_
        simp only [FS.writeFile, ensureDir, FS.mkDir]
        split <;> simp [hdd]

theorem storeGet_set (st : RevertStore) (k : String) (v : RevertRecord) :
    storeGet (storeSet st k v) k = some v := by
  unfold storeGet storeSet
  induction st with
  | nil => simp
  | cons e rest ih =>
    by_cases he : e.1 == k
    · have he' : e.1 = k := by simpa using he
      simp [List.find?_cons, he, he']
    · simp only [List.find?_cons, he, cond_false, List.map_cons, List.cons_append] at ih ⊢
      by_cases hr : (List.find? (fun e => e.1 == k) rest).isSome
      · rw [if_pos hr] at ih ⊢
        simpa [List.find?_cons, he] using ih
      · rw [if_neg hr] at ih ⊢
        simpa [List.find?_cons, he] using ih

theorem rootOrDot_idem (r : String) : rootOrDot (rootOrDot r) = rootOrDot r := by
  by_cases h : r = "" <;> simp [rootOrDot, h]

theorem runPlan_good {cfg : Cfg} {trusted : Bool} {ws : String} {sh : ShellExec}
    {plan : Plan} {fs : FS} {store : RevertStore}
    (hroot : strStartsWith (pathResolve ws (rootOrDot plan.root)) ws = true)
    (htrust : cfg.dryRun = true ∨ trusted = true)
    (hin : ∀ rel ∈ collectTouchedFiles plan,
      strStartsWith (pathResolve (pathResolve ws (rootOrDot plan.root)) rel)
        (pathResolve ws (rootOrDot plan.root)) = true)
    (hne : collectTouchedFiles plan ≠ []) :
    (runPlanModel cfg trusted ws sh plan fs store).store =
      storeSet store (planKey plan)
        { folderPath := ws, root := rootOrDot plan.root,
          before := (collectTouchedFiles plan).map
            (fun rel => (rel, fs.files (pathResolve (pathResolve ws (rootOrDot plan.root)) rel))) }
    ∧ (runPlanModel cfg trusted ws sh plan fs store).fs =
        (execSteps cfg (pathResolve ws (rootOrDot plan.root)) sh 0 plan.steps fs).2 := by
  unfold runPlanModel snapshotBefore
  rw [executePlan_eq_ok hroot htrust, withinWorkspace_ok hroot]
  simp only []
  rw [snapLoop_map _ _ _ hin]
  have hemp : ((collectTouchedFiles plan).map
      (fun rel => (rel, fs.files (pathResolve (pathResolve ws (rootOrDot plan.root)) rel)))).isEmpty = false := by
    cases h : collectTouchedFiles plan with
    | nil => exact absurd h hne
    | cons a l => simp
  simp [hemp]

theorem repairLoopAux_spec (maxAttempts : Nat) (gen : Nat → Except String Plan)
    (run : Plan → Option String) (ar : Bool) :
    ∀ (d a : Nat) (brief : Option String), maxAttempts - a ≤ d →
      (repairLoopAux ar maxAttempts gen run a brief).1 ≤ maxAttempts - a
      ∧ (∀ b', (repairLoopAux ar maxAttempts gen run a brief).2 = Except.ok b' →
          ar = false ∨ b' = none ∨
            maxAttempts ≤ a + (repairLoopAux ar maxAttempts gen run a brief).1)
      ∧ (∀ e, (repairLoopAux ar maxAttempts gen run a brief).2 = Except.error e →
          gen (a + (repairLoopAux ar maxAttempts gen run a brief).1) = Except.error e
          ∧ 1 ≤ (repairLoopAux ar maxAttempts gen run a brief).1)
  | 0, a, brief, hle => by
    have hnc : ¬(ar = true ∧ brief.isSome = true ∧ a < maxAttempts) := by
      rintro ⟨-, -, hlt⟩
      omega
    unfold repairLoopAux
    rw [dif_neg hnc]
    refine ⟨Nat.zero_le _, ?_, fun e he => by cases he⟩
    rintro b' hb
    injection hb with hb
    subst hb
    right
    right
    omega
  | d + 1, a, brief, hle => by
    by_cases hc : ar = true ∧ brief.isSome = true ∧ a < maxAttempts
    · unfold repairLoopAux
      rw [dif_pos hc]
      cases hg : gen (a + 1) with
      | error e =>
        refine ⟨(by omega : (1 : Nat) ≤ maxAttempts - a), fun b' hb => by simp at hb,
          fun e' he => ?_⟩
        simp only at he
        injection he with he
        subst he
        exact ⟨by simpa using hg, le_refl 1⟩
      | ok p =>
        have ih := repairLoopAux_spec maxAttempts gen run ar d (a + 1) (run p) (by omega)
        simp only
        refine ⟨?_, ?_, ?_⟩
        · have := ih.1
          omega
        · intro b' hb
          rcases ih.2.1 b' hb with h | h | h
          · exact Or.inl h
          · exact Or.inr (Or.inl h)
          · exact Or.inr (Or.inr (by omega))
        · intro e he
          obtain ⟨hgen, hone⟩ := ih.2.2 e he
          refine ⟨?_, by omega⟩
          rw [show a + ((repairLoopAux ar maxAttempts gen run (a + 1) (run p)).1 + 1) =
            a + 1 + (repairLoopAux ar maxAttempts gen run (a + 1) (run p)).1 by omega]
          exact hgen
    · unfold repairLoopAux
      rw [dif_neg hc]
      refine ⟨Nat.zero_le _, ?_, fun e he => by cases he⟩
      rintro b' hb
      injection hb with hb
      subst hb
      rcases (by tauto : ¬(ar = true) ∨ ¬(brief.isSome = true) ∨ ¬(a < maxAttempts)) with
        h | h | h
      · exact Or.inl (by simpa using h)
      · exact Or.inr (Or.inl (by simpa [Option.not_isSome_iff_eq_none] using h))
      · exact Or.inr (Or.inr (by omega))

/-- Claim C1, amended: the sandbox resolver accepts a relative path
exactly when its lexical resolution has the root as a *string prefix*
(not when it lies inside the root directory: a sibling such as `/wx`
under root `/w` shares the prefix and is accepted, see the
counterexample); paths resolving inside the root are always accepted;
and a prefix-failing path makes the step fail with the path-escape
error, without touching the filesystem, in *every* case where the
executor consults the sandbox: write/append with a truthy path, edit
with a truthy path and a string `find`, shell with the gate on and a
truthy cmd, mkdir outside dry-run, and install with both gates on and
a nonempty package list.  The only steps that reference such a path
and still succeed never consult the sandbox at all: a dry-run mkdir
(the resolution is skipped entirely) and an install whose effective
package list is empty (a no-op success); both are proved here too. -/
theorem claimC1_prefix_sandbox (root rel : String) (cfg : Cfg) (sh : ShellExec)
    (i : Nat) (st st' : Step) (fs : FS) (p c : String) :
    (strStartsWith (pathResolve root rel) root = true →
      withinWorkspace root rel = Except.ok (pathResolve root rel))
    ∧ (strStartsWith (pathResolve root rel) root = false →
      withinWorkspace root rel = Except.error ("Blocked path outside workspace: " ++ rel))
    ∧ ((st.action = "write" ∨ st.action = "append" ∨
        (st.action = "edit" ∧ st.find.isSome = true)) →
      optNonempty st.path = some p →
      strStartsWith (pathResolve root p) root = false →
      execStep cfg root sh i st fs =
        ({ step := stepTag i st, ok := false,
           error := some ("Blocked path outside workspace: " ++ p) }, fs))
    ∧ (st'.action = "shell" → cfg.allowShell = true →
      optNonempty st'.cmd = some c →
      strStartsWith (pathResolve root (jsOrDot st'.cwd)) root = false →
      execStep cfg root sh i st' fs =
        ({ step := stepTag i st', ok := false,
           error := some ("Blocked path outside workspace: " ++ jsOrDot st'.cwd) }, fs))
    ∧ (st.action = "mkdir" → cfg.dryRun = false →
      strStartsWith (pathResolve root (jsOrDot st.path)) root = false →
      execStep cfg root sh i st fs =
        ({ step := stepTag i st, ok := false,
           error := some ("Blocked path outside workspace: " ++ jsOrDot st.path) }, fs))
    ∧ (st.action = "install" → cfg.allowInstall = true → cfg.allowShell = true →
      st.packages.getD [] ≠ [] →
      strStartsWith (pathResolve root (jsOrDot st.cwd)) root = false →
      execStep cfg root sh i st fs =
        ({ step := stepTag i st, ok := false,
           error := some ("Blocked path outside workspace: " ++ jsOrDot st.cwd) }, fs))
    ∧ (st.action = "mkdir" → cfg.dryRun = true →
      execStep cfg root sh i st fs =
        ({ step := stepTag i st, ok := true, stdout := none, stderr := none }, fs))
    ∧ (st.action = "install" → cfg.allowInstall = true → st.packages.getD [] = [] →
      execStep cfg root sh i st fs =
        ({ step := stepTag i st, ok := true, stdout := some "", stderr := some "" }, fs)) := by
  refine ⟨fun h => withinWorkspace_ok h, fun h => withinWorkspace_err h,
    ?_, ?_, ?_, ?_, ?_, ?_⟩
  · rintro (hact | hact | ⟨hact, hf⟩) hp hesc
    · simp [execStep, execStepE, hact, hp, safeWrite,
        withinWorkspace_err hesc, Bind.bind, Except.instMonad, Except.bind, Except.map, Pure.pure, Except.pure]
    · simp [execStep, execStepE, hact, hp, safeAppend,
        withinWorkspace_err hesc, Bind.bind, Except.instMonad, Except.bind, Except.map, Pure.pure, Except.pure]
    · obtain ⟨f, hf⟩ := Option.isSome_iff_exists.mp hf
      simp [execStep, execStepE, hact, hp, hf, safeEdit,
        withinWorkspace_err hesc, Bind.bind, Except.instMonad, Except.bind, Except.map, Pure.pure, Except.pure]
  · intro hact hgate hc hesc
    simp [execStep, execStepE, hact, hc, runShell, hgate, withinWorkspace_err hesc, Bind.bind, Except.instMonad, Except.bind, Except.map, Pure.pure, Except.pure]
  · intro hact hd hesc
    simp [execStep, execStepE, hact, hd, withinWorkspace_err hesc, Except.map]
  · intro hact hgi hgs hne hesc
    have hie : (st.packages.getD []).isEmpty = false := by
      cases h : st.packages.getD []
      · exact absurd h hne
      · rfl
    simp [execStep, execStepE, hact, installPkgs, hgi, hie, runShell, hgs,
      withinWorkspace_err hesc, Bind.bind, Except.instMonad, Except.bind, Except.map, Pure.pure, Except.pure]
  · intro hact hd
    simp [execStep, execStepE, hact, hd]
  · intro hact hgi hemp
    simp [execStep, execStepE, hact, installPkgs, hgi, hemp, Except.map]

/-- Claim C1, counterexample to the claim as stated: `../wx` against
root `/w` resolves to `/wx`, which lies *outside* the root, yet
`withinWorkspace` accepts it because the prefix test
`"/wx".startsWith "/w")` passes. -/
theorem claimC1_counterexample :
    pathResolve "/w" "../wx" = "/wx" ∧ insideRoot "/w" "/wx" = false
    ∧ withinWorkspace "/w" "../wx" = Except.ok "/wx" := ⟨rfl, rfl, rfl⟩

/-- Claim C1, witness: the amended theorem applied to concrete inputs
on both sides of the prefix test; to concrete escaping write, shell,
live mkdir and gated install steps (all failing with the path-escape
error); and to the two sandbox-skipping cases (dry-run mkdir and
empty-list install with escaping paths, both succeeding). -/
theorem claimC1_witness :
    withinWorkspace "/w" "a" = Except.ok "/w/a"
    ∧ withinWorkspace "/w" "../x" = Except.error "Blocked path outside workspace: ../x"
    ∧ execStep cfgLive "/w" shNull 0 stepEscWrite emptyFS =
        ({ step := "#1 write", ok := false,
           error := some "Blocked path outside workspace: ../../evil" }, emptyFS)
    ∧ execStep cfgShellDry "/w" shNull 0 stepEscShell emptyFS =
        ({ step := "#1 shell", ok := false,
           error := some "Blocked path outside workspace: ../cwd" }, emptyFS)
    ∧ execStep cfgLive "/w" shNull 0 stepEscMkdir emptyFS =
        ({ step := "#1 mkdir", ok := false,
           error := some "Blocked path outside workspace: ../mk" }, emptyFS)
    ∧ execStep cfgFull "/w" shNull 0 stepEscInstall emptyFS =
        ({ step := "#1 install", ok := false,
           error := some "Blocked path outside workspace: ../iw" }, emptyFS)
    ∧ execStep cfgDry "/w" shNull 0 stepEscMkdir emptyFS =
        ({ step := "#1 mkdir", ok := true, stdout := none, stderr := none }, emptyFS)
    ∧ execStep cfgFull "/w" shNull 0 stepInstallEmpty emptyFS =
        ({ step := "#1 install", ok := true, stdout := some "", stderr := some "" }, emptyFS) := by
  refine ⟨(claimC1_prefix_sandbox "/w" "a" cfgLive shNull 0 stepEscWrite stepEscShell emptyFS
      "../../evil" "ls").1 (by decide),
    (claimC1_prefix_sandbox "/w" "../x" cfgLive shNull 0 stepEscWrite stepEscShell emptyFS
      "../../evil" "ls").2.1 (by decide),
    (claimC1_prefix_sandbox "/w" "a" cfgLive shNull 0 stepEscWrite stepEscShell emptyFS
      "../../evil" "ls").2.2.1 (Or.inl rfl) rfl (by decide),
    (claimC1_prefix_sandbox "/w" "a" cfgShellDry shNull 0 stepEscWrite stepEscShell emptyFS
      "../../evil" "ls").2.2.2.1 rfl rfl rfl (by decide),
    (claimC1_prefix_sandbox "/w" "a" cfgLive shNull 0 stepEscMkdir stepEscShell emptyFS
      "../../evil" "ls").2.2.2.2.1 rfl rfl (by decide),
    (claimC1_prefix_sandbox "/w" "a" cfgFull shNull 0 stepEscInstall stepEscShell emptyFS
      "../../evil" "ls").2.2.2.2.2.1 rfl rfl rfl (by decide) (by decide),
    (claimC1_prefix_sandbox "/w" "a" cfgDry shNull 0 stepEscMkdir stepEscShell emptyFS
      "../../evil" "ls").2.2.2.2.2.2.1 rfl rfl,
    (claimC1_prefix_sandbox "/w" "a" cfgFull shNull 0 stepInstallEmpty stepEscShell emptyFS
      "../../evil" "ls").2.2.2.2.2.2.2 rfl rfl rfl⟩

/-- Claim C2, code bug: the executor's framing test demands that
`find` both start *and* end with `/`, so the spec's own example
`/foo/gi` (whose trailing flags make it not end with `/`) is treated
as a literal string: editing `fooFOObaz` with find `/foo/gi` leaves
the content unchanged (and the step still reports success), instead of
the regex substitution with flags `gi` that the spec, the executor's
own error message (`text or /regex/flags`), and the generation prompt
all describe, which would yield `barbarbaz` (third conjunct, computed
by the intended regex semantics).  The literal half of the claim does
hold: editing `foofoo` with literal `foo` yields `barbar`. -/
theorem claimC2_code_bug :
    editApply "fooFOObaz" "/foo/gi" "bar" = "fooFOObaz"
    ∧ editApply "foofoo" "foo" "bar" = "barbar"
    ∧ strEndsWith "/foo/gi" "/" = false
    ∧ jsRegexReplace "foo" "gi" "fooFOObaz" "bar" = "barbarbaz"
    ∧ (execStep cfgLive "/w" shNull 0 editStepC2 fsC2).1.ok = true
    ∧ (execStep cfgLive "/w" shNull 0 editStepC2 fsC2).2.files "/w/f.txt" = some "fooFOObaz" :=
  ⟨rfl, rfl, rfl, rfl, rfl, rfl⟩

/-- Claim C6, amended: a shell step hard-fails when the shell gate is
off, before dry-run is consulted (the first conjunct holds for every
configuration, dry-run included); when the gate is on and dry-run is
set the step succeeds with empty captured output *provided the cwd
resolves inside the sandbox* (the counterexample shows an escaping cwd
fails even in dry-run); and under dry-run the result never depends on
the subprocess runner — no subprocess is consulted. -/
theorem claimC6_amended (cfg : Cfg) (root cmd cwd : String) (sh sh' : ShellExec) :
    (cfg.allowShell = false →
      runShell cfg root sh cmd cwd =
        Except.error "Shell execution is disabled in settings (myCursor.allowShell=false).")
    ∧ (cfg.allowShell = true → cfg.dryRun = true →
        strStartsWith (pathResolve root cwd) root = true →
        runShell cfg root sh cmd cwd = Except.ok ("", ""))
    ∧ (cfg.dryRun = true → runShell cfg root sh cmd cwd = runShell cfg root sh' cmd cwd) := by
  refine ⟨fun hgate => ?_, fun hgate hdry hin => ?_, fun hdry => ?_⟩
  · simp [runShell, hgate]
  · simp [runShell, hgate, hdry, withinWorkspace_ok hin, Bind.bind, Except.instMonad,
      Except.bind, Pure.pure, Except.pure]
  · cases hgate : cfg.allowShell
    · simp [runShell, hgate]
    · cases hww : withinWorkspace root cwd <;>
        simp [runShell, hgate, hdry, hww, Bind.bind, Except.instMonad, Except.bind, Pure.pure, Except.pure]

/-- Claim C6, counterexample to the claim as stated: with the shell
gate on and dry-run set, a shell step whose cwd escapes the workspace
fails with a path-escape error instead of succeeding with empty
output, because the cwd is sandboxed before dry-run is consulted. -/
theorem claimC6_counterexample :
    runShell cfgShellDry "/w" shNull "ls" "../x" =
      Except.error "Blocked path outside workspace: ../x" := rfl

/-- Claim C6, witness: the amended theorem applied at concrete
configurations — gate off fails, gate on in dry-run succeeds with
empty output, and the dry-run result is independent of the subprocess
runner. -/
theorem claimC6_witness :
    runShell cfgDry "/w" shNull "ls" "." =
      Except.error "Shell execution is disabled in settings (myCursor.allowShell=false)."
    ∧ runShell cfgShellDry "/w" shNull "ls" "." = Except.ok ("", "")
    ∧ runShell cfgShellDry "/w" shNull "ls" "." =
        runShell cfgShellDry "/w" (fun c d => (c, d)) "ls" "." :=
  ⟨(claimC6_amended cfgDry "/w" "ls" "." shNull shNull).1 rfl,
   (claimC6_amended cfgShellDry "/w" "ls" "." shNull shNull).2.1 rfl rfl (by decide),
   (claimC6_amended cfgShellDry "/w" "ls" "." shNull (fun c d => (c, d))).2.2 rfl⟩

/-- Claim C7, confirmed: an edit step whose in-sandbox target file
does not exist fails with the missing-file error and leaves the
filesystem untouched, for every configuration — dry-run and live alike,
because the read precedes the dry-run check. -/
theorem claimC7_missing_edit (cfg : Cfg) (root p f : String) (sh : ShellExec) (i : Nat)
    (st : Step) (fs : FS)
    (hact : st.action = "edit") (hp : optNonempty st.path = some p)
    (hf : st.find = some f)
    (hin : strStartsWith (pathResolve root p) root = true)
    (hmiss : fs.files (pathResolve root p) = none) :
    execStep cfg root sh i st fs =
      ({ step := stepTag i st, ok := false,
         error := some ("Cannot edit missing file: " ++ p) }, fs) := by
  simp [execStep, execStepE, hact, hp, hf, safeEdit, withinWorkspace_ok hin, hmiss,
    Bind.bind, Except.instMonad, Except.bind, Except.map, Pure.pure, Except.pure]

/-- Claim C7, witness: the theorem applied to a concrete missing-file
edit step in dry-run and in live mode. -/
theorem claimC7_witness :
    execStep cfgDry "/w" shNull 0 editStepMiss emptyFS =
      ({ step := "#1 edit", ok := false,
         error := some "Cannot edit missing file: missing.txt" }, emptyFS)
    ∧ execStep cfgLive "/w" shNull 0 editStepMiss emptyFS =
        ({ step := "#1 edit", ok := false,
           error := some "Cannot edit missing file: missing.txt" }, emptyFS) :=
  ⟨claimC7_missing_edit cfgDry "/w" "missing.txt" "x" shNull 0 editStepMiss emptyFS
      rfl rfl rfl (by decide) rfl,
   claimC7_missing_edit cfgLive "/w" "missing.txt" "x" shNull 0 editStepMiss emptyFS
      rfl rfl rfl (by decide) rfl⟩

/-- Claim C10, confirmed: an edit step with an empty `find` string is
accepted (the executor only requires `find` to be a string), takes the
literal branch, and computes `content.split("").join(replace)` — the
replacement inserted between every pair of adjacent characters, hence
a length of `n + (n-1)·|replace|` for content of length `n` and empty
content staying empty — and the step reports success, persisting the
result exactly when dry-run is off. -/
theorem claimC10_empty_find (data repl : String) (cfg : Cfg) (root p : String) (sh : ShellExec)
    (i : Nat) (st : Step) (fs : FS)
    (hact : st.action = "edit") (hp : optNonempty st.path = some p)
    (hf : st.find = some "")
    (hin : strStartsWith (pathResolve root p) root = true)
    (hdata : fs.files (pathResolve root p) = some data) :
    editApply data "" repl = joinWith repl (data.data.map (fun c => String.mk [c]))
    ∧ (data = "" → editApply data "" repl = "")
    ∧ (editApply data "" repl).length = data.length + (data.data.length - 1) * repl.length
    ∧ execStep cfg root sh i st fs =
        ({ step := stepTag i st, ok := true, stdout := none, stderr := none },
          if cfg.dryRun then fs
          else fs.writeFile (pathResolve root p) (editApply data "" (st.replace.getD ""))) := by
  have h1 : editApply data "" repl = joinWith repl (data.data.map (fun c => String.mk [c])) := by
    simp [editApply, jsSplitJoin, jsSplit]
  refine ⟨h1, fun h => by subst h; rfl, ?_, ?_⟩
  · rw [h1, joinWith_singletons_length]
    rfl
  · by_cases hd : cfg.dryRun <;>
      simp [execStep, execStepE, hact, hp, hf, safeEdit, withinWorkspace_ok hin, hdata, hd,
        Bind.bind, Except.instMonad, Except.bind, Except.map, Pure.pure, Except.pure]

/-- Claim C10, witness: the theorem applied to a concrete empty-find
edit step against `fooFOObaz`, yielding `f-o-o-F-O-O-b-a-z`. -/
theorem claimC10_witness :
    editApply "abc" "" "-" = "a-b-c"
    ∧ execStep cfgLive "/w" shNull 0 editStepEmptyFind fsC2 =
        ({ step := "#1 edit", ok := true, stdout := none, stderr := none },
          fsC2.writeFile "/w/f.txt" "f-o-o-F-O-O-b-a-z") := by
  have h := claimC10_empty_find "fooFOObaz" "-" cfgLive "/w" "f.txt" shNull 0
    editStepEmptyFind fsC2 rfl rfl rfl (by decide) rfl
  exact ⟨rfl, by simpa using h.2.2.2⟩

/-- Claim C5, confirmed: in dry-run mode every run that returns a
result list leaves the filesystem exactly as it was (files and
directories alike), one result per step, and every well-formed
mutating step (mkdir always; write/append with a truthy in-sandbox
path; edit additionally with a string `find` and an existing target)
reports success. -/
theorem claimC5_dry_run (cfg : Cfg) (trusted : Bool) (ws : String) (sh : ShellExec)
    (plan : Plan) (fs : FS) (results : List SResult) (fs' : FS)
    (hdry : cfg.dryRun = true)
    (hrun : executePlan cfg trusted ws sh plan fs = Except.ok (results, fs')) :
    fs' = fs
    ∧ results.length = plan.steps.length
    ∧ (∀ k st, plan.steps.get? k = some st →
        dryWellFormed (pathResolve ws (rootOrDot plan.root)) fs st →
        ∃ r, results.get? k = some r ∧ r.ok = true) := by
  obtain ⟨hs, hres, hfs⟩ := executePlan_ok_elim hrun
  subst hres hfs
  refine ⟨execSteps_dry_fs cfg _ sh hdry plan.steps 0 fs,
    execSteps_length cfg _ sh plan.steps 0 fs, ?_⟩
  intro k st hk hwf
  exact ⟨(execStep cfg (pathResolve ws (rootOrDot plan.root)) sh (0 + k) st fs).1,
    execSteps_dry_get? cfg _ sh hdry plan.steps 0 k fs st hk, execStep_dry_ok hdry hwf⟩

/-- Claim C3, amended: whenever the plan root resolves inside the
workspace (the third whole-run-abort case the claim omits — see the
counterexample) and the trust gate passes, execution returns a
complete result list with exactly one result per step, in order, each
labeled with the stable `"#<1-based index> <action>"` tag;
per-step failures are recorded as failure results (continue-on-error),
never as exceptions. -/
theorem claimC3_amended (cfg : Cfg) (trusted : Bool) (ws : String) (sh : ShellExec)
    (plan : Plan) (fs : FS)
    (hroot : strStartsWith (pathResolve ws (rootOrDot plan.root)) ws = true)
    (htrust : cfg.dryRun = true ∨ trusted = true) :
    ∃ results fs',
      executePlan cfg trusted ws sh plan fs = Except.ok (results, fs')
      ∧ results.length = plan.steps.length
      ∧ (∀ k, (results.get? k).map SResult.step =
          (plan.steps.get? k).map (fun s => stepTag k s)) := by
  refine ⟨_, _, executePlan_eq_ok hroot htrust, execSteps_length cfg _ sh plan.steps 0 fs, ?_⟩
  intro k
  simpa using execSteps_get? cfg (pathResolve ws (rootOrDot plan.root)) sh plan.steps 0 k fs

/-- Claim C3, counterexample to "except only for the two whole-run-
abort cases": a plan whose *root* escapes the workspace aborts the
whole run with a path-escape error — under dry-run, so the
workspace-trust abort is not involved, and no plan parsing is involved
— a third abort case beyond the two the claim lists. -/
theorem claimC3_counterexample :
    executePlan cfgDry true "/w" shNull planC3bad emptyFS =
      Except.error "Blocked path outside workspace: ../x"
    ∧ cfgDry.dryRun = true := ⟨rfl, rfl⟩

/-- Claim C3, witness: the amended theorem applied to a concrete
two-step plan whose steps both fail (escaping path, missing edit
target): the run still returns two ordered, labeled results. -/
theorem claimC3_witness :
    strStartsWith (pathResolve "/w" (rootOrDot planC3w.root)) "/w" = true
    ∧ (∃ results fs',
        executePlan cfgDry true "/w" shNull planC3w emptyFS = Except.ok (results, fs')
        ∧ results.length = planC3w.steps.length
        ∧ (∀ k, (results.get? k).map SResult.step =
            (planC3w.steps.get? k).map (fun s => stepTag k s))) :=
  ⟨by decide, claimC3_amended cfgDry true "/w" shNull planC3w emptyFS (by decide) (Or.inl rfl)⟩

/-- Claim C5, witness: the theorem applied to a concrete one-step
write plan under the dry-run configuration. -/
theorem claimC5_witness :
    (execSteps cfgDry (pathResolve "/w" (rootOrDot planC5w.root)) shNull 0 planC5w.steps emptyFS).2 = emptyFS
    ∧ (execSteps cfgDry (pathResolve "/w" (rootOrDot planC5w.root)) shNull 0 planC5w.steps emptyFS).1.length = planC5w.steps.length
    ∧ (∀ k st, planC5w.steps.get? k = some st →
        dryWellFormed (pathResolve "/w" (rootOrDot planC5w.root)) emptyFS st →
        ∃ r, (execSteps cfgDry (pathResolve "/w" (rootOrDot planC5w.root)) shNull 0 planC5w.steps emptyFS).1.get? k = some r ∧ r.ok = true) :=
  claimC5_dry_run cfgDry true "/w" shNull planC5w emptyFS _ _ rfl rfl

/-- Claim C8, confirmed: the auto-repair loop performs at most
`maxRepairAttempts` plan generations (whatever the outcomes); when it
stops normally it is because auto-repair is off, the last execution
produced a zero-failure (empty) brief, or the attempt budget is
exhausted; and a generation-collaborator error is surfaced as the
loop's result with the failing generation being the last one performed
— it is not retried. -/
theorem claimC8_repair_bound (ar : Bool) (maxAttempts : Nat) (gen : Nat → Except String Plan)
    (run : Plan → Option String) (plan : Plan) (brief0 : Option String) :
    (repairLoopAux ar maxAttempts gen run 0 brief0).1 ≤ maxAttempts
    ∧ (autoRunRepair ar maxAttempts gen run plan).1 ≤ maxAttempts
    ∧ (∀ b', (repairLoopAux ar maxAttempts gen run 0 brief0).2 = Except.ok b' →
        ar = false ∨ b' = none ∨
          maxAttempts ≤ (repairLoopAux ar maxAttempts gen run 0 brief0).1)
    ∧ (∀ e, (repairLoopAux ar maxAttempts gen run 0 brief0).2 = Except.error e →
        gen ((repairLoopAux ar maxAttempts gen run 0 brief0).1) = Except.error e
        ∧ 1 ≤ (repairLoopAux ar maxAttempts gen run 0 brief0).1) := by
  have h := repairLoopAux_spec maxAttempts gen run ar maxAttempts 0 brief0 (by omega)
  have h2 := repairLoopAux_spec maxAttempts gen run ar maxAttempts 0 (run plan) (by omega)
  refine ⟨by simpa using h.1, by simpa [autoRunRepair] using h2.1, ?_, ?_⟩
  · intro b' hb
    simpa using h.2.1 b' hb
  · intro e he
    simpa using h.2.2 e he

/-- Claim C8, witness: the bound applied to a concrete always-failing
run with `maxRepairAttempts = 2`. -/
theorem claimC8_witness :
    (repairLoopAux true 2 genW runFailW 0 (some "seed")).1 ≤ 2
    ∧ (autoRunRepair true 2 genW runFailW planC5w).1 ≤ 2 :=
  ⟨(claimC8_repair_bound true 2 genW runFailW planC5w (some "seed")).1,
   (claimC8_repair_bound true 2 genW runFailW planC5w (some "seed")).2.1⟩

/-- Claim C9, counterexample to the claim as stated: on input
`"null"` the first parse attempt *succeeds* (with the JSON value
`null`), yet coercion returns no Plan and no parse error — the
property access `obj.goal` raises a `TypeError`. -/
theorem claimC9_counterexample :
    coerceParsed "null" = Except.ok Json.null
    ∧ coerceJsonToPlan "null" =
        Except.error "TypeError: Cannot read properties of null (reading 'goal')" :=
  ⟨rfl, rfl⟩

/-- Claim C9, amended: for every input whose two-attempt parse does
not succeed with the JSON value `null`, the implemented coercion
agrees exactly with the spec's procedure (fence stripping, whole-text
parse then first-`\x7b`-to-last-`\x7d` slice, parse error if both
fail, then goal/root defaults, steps coerced to a sequence and
filtered to the six known action kinds with no field-completeness
validation). -/
theorem claimC9_amended (raw : String) (h : coerceParsed raw ≠ Except.ok Json.null) :
    coerceJsonToPlan raw = coercePlanFromSpec raw := by
  unfold coerceJsonToPlan coercePlanFromSpec
  cases hv : coerceParsed raw with
  | error e => rfl
  | ok v => cases v <;> first | exact absurd hv h | rfl

/-- Claim C9, witness: the amended theorem applied to a concrete
fenced response; the coerced plan keeps the content-less write step
and silently drops the unknown `bogus` action, with goal and root
defaults applied. -/
theorem claimC9_witness :
    coerceParsed rawC9w ≠ Except.ok Json.null
    ∧ coerceJsonToPlan rawC9w = coercePlanFromSpec rawC9w
    ∧ coerceJsonToPlan rawC9w =
        Except.ok { goal := "g", root := ".", steps := [{ action := "write", path := some "a" }] } := by
  have hne : coerceParsed rawC9w ≠ Except.ok Json.null := by
    rw [show coerceParsed rawC9w = Except.ok (Json.obj
      [("goal", Json.str "g"),
       ("steps", Json.arr
         [Json.obj [("action", Json.str "write"), ("path", Json.str "a")],
          Json.obj [("action", Json.str "bogus")]])]) from rfl]
    simp
  exact ⟨hne, claimC9_amended rawC9w hne, rfl⟩

/-- Claim C4, amended: provided every touched path resolves inside
the sandbox (otherwise snapshotting aborts at the first escaping path
— see the counterexample) and at least one path is touched, the run
stores under the plan's canonical key a snapshot recording each
touched path's prior content or absence marker; reverting then
restores byte-identical prior content at every touched path (deleting
files that did not exist), never removes a directory (mkdir effects
stay), and a second revert of the same plan is a no-op on file
contents because the stored snapshot is immutable. -/
theorem claimC4_amended (cfg : Cfg) (trusted : Bool) (ws : String) (sh : ShellExec)
    (plan : Plan) (fs : FS) (store : RevertStore)
    (hroot : strStartsWith (pathResolve ws (rootOrDot plan.root)) ws = true)
    (htrust : cfg.dryRun = true ∨ trusted = true)
    (hin : ∀ rel ∈ collectTouchedFiles plan,
      strStartsWith (pathResolve (pathResolve ws (rootOrDot plan.root)) rel)
        (pathResolve ws (rootOrDot plan.root)) = true)
    (hne : collectTouchedFiles plan ≠ []) :
    storeGet (runPlanModel cfg trusted ws sh plan fs store).store (planKey plan) =
      some { folderPath := ws, root := rootOrDot plan.root,
             before := (collectTouchedFiles plan).map
               (fun rel => (rel, fs.files (pathResolve (pathResolve ws (rootOrDot plan.root)) rel))) }
    ∧ ∃ fs2,
        revertPlanModel plan (runPlanModel cfg trusted ws sh plan fs store).fs
            (runPlanModel cfg trusted ws sh plan fs store).store = Except.ok fs2
        ∧ (∀ rel ∈ collectTouchedFiles plan,
            fs2.files (pathResolve (pathResolve ws (rootOrDot plan.root)) rel) =
              fs.files (pathResolve (pathResolve ws (rootOrDot plan.root)) rel))
        ∧ (∀ d, (runPlanModel cfg trusted ws sh plan fs store).fs.dirs d = true →
            fs2.dirs d = true)
        ∧ ∃ fs3, revertPlanModel plan fs2
              (runPlanModel cfg trusted ws sh plan fs store).store = Except.ok fs3
            ∧ ∀ q, fs3.files q = fs2.files q := by
  obtain ⟨hstore, hfs⟩ := runPlan_good hroot htrust hin hne
  have hinE : ∀ e ∈ (collectTouchedFiles plan).map
      (fun rel => (rel, fs.files (pathResolve (pathResolve ws (rootOrDot plan.root)) rel))),
      strStartsWith (pathResolve (pathResolve ws (rootOrDot plan.root)) e.1)
        (pathResolve ws (rootOrDot plan.root)) = true := by
    intro e he
    obtain ⟨rel, hrel, hrfl⟩ := List.mem_map.mp he
    subst hrfl
    exact hin rel hrel
  have hvalE : ∀ e ∈ (collectTouchedFiles plan).map
      (fun rel => (rel, fs.files (pathResolve (pathResolve ws (rootOrDot plan.root)) rel))),
      e.2 = fs.files (pathResolve (pathResolve ws (rootOrDot plan.root)) e.1) := by
    intro e he
    obtain ⟨rel, hrel, hrfl⟩ := List.mem_map.mp he
    subst hrfl
    rfl
  refine ⟨by rw [hstore, storeGet_set], ?_⟩
  obtain ⟨fs2, hrev, hq, hd⟩ := revLoop_restore (pathResolve ws (rootOrDot plan.root)) fs
    ((collectTouchedFiles plan).map
      (fun rel => (rel, fs.files (pathResolve (pathResolve ws (rootOrDot plan.root)) rel))))
    (runPlanModel cfg trusted ws sh plan fs store).fs hinE hvalE
  have hrev1 : revertPlanModel plan (runPlanModel cfg trusted ws sh plan fs store).fs
      (runPlanModel cfg trusted ws sh plan fs store).store = Except.ok fs2 := by
    unfold revertPlanModel
    rw [hstore, storeGet_set]
    simp only [rootOrDot_idem]
    rw [withinWorkspace_ok hroot]
    simpa [Bind.bind, Except.instMonad, Except.bind] using hrev
  refine ⟨fs2, hrev1, ?_, hd, ?_⟩
  · intro rel hrel
    rw [hq]
    have : ((collectTouchedFiles plan).map
        (fun r => (r, fs.files (pathResolve (pathResolve ws (rootOrDot plan.root)) r)))).any
        (fun e => pathResolve (pathResolve ws (rootOrDot plan.root)) e.1 ==
          pathResolve (pathResolve ws (rootOrDot plan.root)) rel) = true := by
      refine List.any_eq_true.mpr ⟨(rel, fs.files (pathResolve (pathResolve ws (rootOrDot plan.root)) rel)), ?_, by simp⟩
      exact List.mem_map.mpr ⟨rel, hrel, rfl⟩
    rw [if_pos this]
  · obtain ⟨fs3, hrev3, hq3, _⟩ := revLoop_restore (pathResolve ws (rootOrDot plan.root)) fs
      ((collectTouchedFiles plan).map
        (fun rel => (rel, fs.files (pathResolve (pathResolve ws (rootOrDot plan.root)) rel))))
      fs2 hinE hvalE
    have hrev2 : revertPlanModel plan fs2
        (runPlanModel cfg trusted ws sh plan fs store).store = Except.ok fs3 := by
      unfold revertPlanModel
      rw [hstore, storeGet_set]
      simp only [rootOrDot_idem]
      rw [withinWorkspace_ok hroot]
      simpa [Bind.bind, Except.instMonad, Except.bind] using hrev3
    refine ⟨fs3, hrev2, ?_⟩
    intro q
    rw [hq3 q, hq q]
    by_cases hm : ((collectTouchedFiles plan).map
        (fun rel => (rel, fs.files (pathResolve (pathResolve ws (rootOrDot plan.root)) rel)))).any
        (fun e => pathResolve (pathResolve ws (rootOrDot plan.root)) e.1 == q) = true <;>
      simp [hm]

/-- Claim C4, counterexample to the claim as stated: in a plan whose
*first* touched path escapes the sandbox, the snapshot loop aborts
before recording anything, so no revert record is stored; the second
step still creates `/w/a`, and reverting the plan is a no-op — the
file that did not exist before the plan is *not* deleted. -/
theorem claimC4_counterexample :
    (runPlanModel cfgLive true "/w" shNull planC4bad emptyFS []).fs.files "/w/a" = some "x"
    ∧ emptyFS.files "/w/a" = none
    ∧ storeGet (runPlanModel cfgLive true "/w" shNull planC4bad emptyFS []).store
        (planKey planC4bad) = none
    ∧ revertPlanModel planC4bad (runPlanModel cfgLive true "/w" shNull planC4bad emptyFS []).fs
        (runPlanModel cfgLive true "/w" shNull planC4bad emptyFS []).store =
      Except.ok (runPlanModel cfgLive true "/w" shNull planC4bad emptyFS []).fs :=
  ⟨rfl, rfl, rfl, rfl⟩

/-- Claim C4, witness: the amended theorem applied to a concrete
two-write plan over a filesystem holding `old.txt`: revert restores
`OLD` and deletes `new.txt`, idempotently. -/
theorem claimC4_witness :
    storeGet (runPlanModel cfgLive true "/w" shNull planC4good fsC4 []).store
        (planKey planC4good) =
      some { folderPath := "/w", root := rootOrDot planC4good.root,
             before := (collectTouchedFiles planC4good).map
               (fun rel => (rel, fsC4.files
                 (pathResolve (pathResolve "/w" (rootOrDot planC4good.root)) rel))) }
    ∧ ∃ fs2,
        revertPlanModel planC4good (runPlanModel cfgLive true "/w" shNull planC4good fsC4 []).fs
            (runPlanModel cfgLive true "/w" shNull planC4good fsC4 []).store = Except.ok fs2
        ∧ (∀ rel ∈ collectTouchedFiles planC4good,
            fs2.files (pathResolve (pathResolve "/w" (rootOrDot planC4good.root)) rel) =
              fsC4.files (pathResolve (pathResolve "/w" (rootOrDot planC4good.root)) rel))
        ∧ (∀ d, (runPlanModel cfgLive true "/w" shNull planC4good fsC4 []).fs.dirs d = true →
            fs2.dirs d = true)
        ∧ ∃ fs3, revertPlanModel planC4good fs2
              (runPlanModel cfgLive true "/w" shNull planC4good fsC4 []).store = Except.ok fs3
            ∧ ∀ q, fs3.files q = fs2.files q :=
  claimC4_amended cfgLive true "/w" shNull planC4good fsC4 []
    (by decide) (Or.inr rfl) (by decide) (by decide)

end MyCursor
